import Mathlib

/-!
Verification of the Core-BMC/Radiographics scripts: image encoder with
size-bounded retry (`process_and_encode_image`), the three provider request
clients (`analyze_images_with_gpt4_vision`, `analyze_images_with_gemini_vision`,
`analyze_images_with_claude_vision`), the batch-runner main loop (skip rule,
result write, timing upsert), and the heuristic section splitter of
`2_GPT_and_Claude_results_excel_summarizer.py`.

Embedding conventions: byte buffers and JPEG serialization are abstracted by a
size function `sz : Nat → Nat → Nat` giving the serialized byte count for given
pixel dimensions; Python `int(w * rf ** k)` with `rf = num/den` is the exact
rational truncation `w * num ^ k / den ^ k` (Nat division); Python strings are
Lean `String`s with containment/prefix tests done on the underlying `List Char`;
Python floats (temperatures, elapsed seconds) are `ℚ`; exceptions are modelled
as values (`ApiResult.exn` for a caught exception's stringified message,
`Except.error` for a raised `ValueError`).
-/

namespace Radiographics

/-! ## Image Encoder (`process_and_encode_image`, identical in all three scripts) -/

/-- MAX_SIZE from the source: `20 * 1024 * 1024` bytes (20 MiB). -/
def MAX_SIZE : Nat := 20 * 1024 * 1024

/-- Dimension used at a given attempt: `int(original * (resize_factor ** attempt))`
with `resize_factor = rfNum / rfDen`, computed exactly (truncated division). -/
def attemptDim (orig rfNum rfDen k : Nat) : Nat :=
  orig * rfNum ^ k / rfDen ^ k

/-- Loop body of `process_and_encode_image`: `rem` attempts remain, `k` is the
current value of `attempt`. Each attempt resizes to the geometric dimensions,
serializes (byte count `sz w h`), and returns that encoding when strictly below
`MAX_SIZE`; otherwise it retries, raising `ValueError` when attempts run out.
The returned `Nat` is the byte size of the accepted JPEG payload (the base64
string the source builds from it is a pure function of that payload). -/
def encodeLoop (sz : Nat → Nat → Nat) (w h rfNum rfDen : Nat) :
    Nat → Nat → Except String Nat
  | 0, _ => Except.error "Unable to reduce image size within 5 attempts"
  | rem + 1, k =>
      let s := sz (attemptDim w rfNum rfDen k) (attemptDim h rfNum rfDen k)
      if s < MAX_SIZE then Except.ok s
      else encodeLoop sz w h rfNum rfDen rem (k + 1)

/-- Embedding of `process_and_encode_image(image, resize_factor)`: `sz w' h'` is
the serialized JPEG byte count of the (RGBA-converted) image resized to
`w' × h'`; at most 5 attempts, starting at full resolution. -/
def process_and_encode_image (sz : Nat → Nat → Nat) (w h rfNum rfDen : Nat) :
    Except String Nat :=
  encodeLoop sz w h rfNum rfDen 5 0

/-- Byte size produced at attempt `k`. -/
def attemptSize (sz : Nat → Nat → Nat) (w h rfNum rfDen k : Nat) : Nat :=
  sz (attemptDim w rfNum rfDen k) (attemptDim h rfNum rfDen k)

/-! ## Python string helpers -/

/-- ASCII apostrophe (codepoint 39). -/
def apos : Char := Char.ofNat 39

/-- Refusal prefix the GPT-4o and Claude clients test with `startswith`. -/
def imSorryBut : String := "I" ++ apos.toString ++ "m sorry, but"

/-- Longer refusal phrase named by the specification. -/
def imSorryButICannot : String := imSorryBut ++ " I cannot"

/-- Python substring containment `pat in s`. -/
def pyContains (s pat : String) : Bool := decide (pat.data <:+: s.data)

/-- Python `s.startswith(pre)`. -/
def pyStartsWith (s pre : String) : Bool := decide (pre.data <+: s.data)

/-- Python `s.lower()` (the messages tested are ASCII, where `Char.toLower`
agrees with Python's case folding). -/
def pyLower (s : String) : String := ⟨s.data.map Char.toLower⟩

/-! ## Provider Request Clients

Each client is a `for attempt in range(10)` loop embedded as a step function on
an explicit state. The external API call is a parameter
`call : Nat → List Img → ApiResult` mapping the attempt number and the current
image list to either a response text (`ok`) or the stringified message of a
raised exception (`exn`). Re-encoding a list of images through
`process_and_encode_image` at a given resize factor is abstracted as a function
`List Img → List Img` (one parameter per factor used by the script). -/

/-- Outcome of one API call: a response, or a caught exception's message. -/
inductive ApiResult where
  | ok (text : String)
  | exn (msg : String)
deriving DecidableEq

/-- Final outcome of a client call: a returned text, the `return None` that
follows loop exhaustion, or the Claude quota path that saves the execution-time
table and calls `sys.exit()`. -/
inductive Final where
  | answer (text : String)
  | noResult
  | savedTimesAndExited
deriving DecidableEq

/-- State of one client invocation: the loop counter `attempt`, the arguments
`prompt`/`temperature` (never reassigned by the loop body), the current
`encoded_images` list, and the outcome once the call has finished. -/
structure ClientState (Img : Type) where
  attempt : Nat
  prompt : String
  temperature : ℚ
  images : List Img
  result : Option Final
deriving DecidableEq

/-- max_attempts in all three clients. -/
def MAX_ATTEMPTS : Nat := 10

/-- State at loop entry. -/
def initState {Img : Type} (prompt : String) (temperature : ℚ)
    (images : List Img) : ClientState Img :=
  ⟨0, prompt, temperature, images, none⟩

/-- One iteration of `analyze_images_with_gpt4_vision`: a response starting
with the refusal prefix is retried (`continue`, images unchanged); an exception
whose lowercased message contains `image_parse_error`, with attempts remaining,
re-encodes the images and retries; any other exception just retries; any other
response is returned. -/
def gptStep {Img : Type} (call : Nat → List Img → ApiResult)
    (resize : List Img → List Img) (s : ClientState Img) : ClientState Img :=
  match s.result with
  | some _ => s
  | none =>
    if s.attempt < MAX_ATTEMPTS then
      match call s.attempt s.images with
      | .ok text =>
          if pyStartsWith text imSorryBut then
            { s with attempt := s.attempt + 1 }
          else
            { s with result := some (.answer text) }
      | .exn msg =>
          if pyContains (pyLower msg) "image_parse_error" ∧
              s.attempt < MAX_ATTEMPTS - 1 then
            { s with attempt := s.attempt + 1, images := resize s.images }
          else
            { s with attempt := s.attempt + 1 }
    else
      { s with result := some .noResult }

/-- One iteration of `analyze_images_with_gemini_vision`: a string response of
length below 10 re-encodes the images at factor 0.9 and retries; an exception
whose lowercased message contains the uppercase literal `SAFETY` (the test
written in the source) re-encodes at factor 0.7 and retries; any other
exception just retries; any other response is returned. -/
def geminiStep {Img : Type} (call : Nat → List Img → ApiResult)
    (resize09 resize07 : List Img → List Img) (s : ClientState Img) :
    ClientState Img :=
  match s.result with
  | some _ => s
  | none =>
    if s.attempt < MAX_ATTEMPTS then
      match call s.attempt s.images with
      | .ok text =>
          if text.length < 10 then
            { s with attempt := s.attempt + 1, images := resize09 s.images }
          else
            { s with result := some (.answer text) }
      | .exn msg =>
          if pyContains (pyLower msg) "SAFETY" ∧ s.attempt < MAX_ATTEMPTS - 1 then
            { s with attempt := s.attempt + 1, images := resize07 s.images }
          else
            { s with attempt := s.attempt + 1 }
    else
      { s with result := some .noResult }

/-- One iteration of `analyze_images_with_claude_vision`: like the GPT-4o
client, except that an exception whose lowercased message contains `exceeded`
saves the execution-time table and exits the process before any other check. -/
def claudeStep {Img : Type} (call : Nat → List Img → ApiResult)
    (resize : List Img → List Img) (s : ClientState Img) : ClientState Img :=
  match s.result with
  | some _ => s
  | none =>
    if s.attempt < MAX_ATTEMPTS then
      match call s.attempt s.images with
      | .ok text =>
          if pyStartsWith text imSorryBut then
            { s with attempt := s.attempt + 1 }
          else
            { s with result := some (.answer text) }
      | .exn msg =>
          if pyContains (pyLower msg) "exceeded" then
            { s with result := some .savedTimesAndExited }
          else if pyContains (pyLower msg) "image_parse_error" ∧
              s.attempt < MAX_ATTEMPTS - 1 then
            { s with attempt := s.attempt + 1, images := resize s.images }
          else
            { s with attempt := s.attempt + 1 }
    else
      { s with result := some .noResult }

/-- Running a client to completion: 11 steps always suffice (10 loop
iterations plus the final `return None` step). -/
def runClient {Img : Type} (step : ClientState Img → ClientState Img)
    (s : ClientState Img) : ClientState Img :=
  step^[MAX_ATTEMPTS + 1] s

/-- Return value of `analyze_images_with_gpt4_vision`: `response.choices[0]`
(an object whose `message.content` is the text) or `None`. -/
structure Choice where
  content : String
deriving DecidableEq

/-- Embedding of `analyze_images_with_gpt4_vision`. -/
def analyze_images_with_gpt4_vision {Img : Type}
    (call : Nat → List Img → ApiResult) (resize : List Img → List Img)
    (prompt : String) (temperature : ℚ) (images : List Img) : Option Choice :=
  match (runClient (gptStep call resize) (initState prompt temperature images)).result with
  | some (.answer t) => some ⟨t⟩
  | _ => none

/-- Embedding of `analyze_images_with_gemini_vision` (returns the text). -/
def analyze_images_with_gemini_vision {Img : Type}
    (call : Nat → List Img → ApiResult) (resize09 resize07 : List Img → List Img)
    (prompt : String) (temperature : ℚ) (images : List Img) : Option String :=
  match (runClient (geminiStep call resize09 resize07)
      (initState prompt temperature images)).result with
  | some (.answer t) => some t
  | _ => none

/-! ## Batch Runner (main loop of `1-1-2_GPT4o.py`)

One work item per `(temperature, try, case)` triple; its precomputed result
file path stands for `result_file_path`. The filesystem is an association list
from paths to contents; `provider` stands for the full
`analyze_images_with_gpt4_vision` call for the item's prompt and images. -/

/-- One unit of the main loop's work: a case under one run configuration. -/
structure CaseItem where
  resultFilePath : String
deriving DecidableEq

/-- Filesystem as an association list path ↦ file content. -/
abbrev FS : Type := List (String × String)

/-- os.path.exists. -/
def fsExists (fs : FS) (p : String) : Bool := (List.lookup p fs).isSome

/-- Writing a file (`open(path, "w").write(content)`): overwrite or create. -/
def fsWrite (fs : FS) (p c : String) : FS :=
  if fsExists fs p then
    fs.map (fun q => if q.1 = p then (p, c) else q)
  else
    fs ++ [(p, c)]

/-- Observable effects of the batch loop: the filesystem, the number of
provider calls made, and the paths logged as failures (`log_message` on a
falsy result). -/
structure BatchOut where
  fs : FS
  providerCalls : Nat
  loggedFailures : List String
deriving DecidableEq

/-- Body of the main loop for one case: skip when the result file exists
(before any provider call); otherwise call the provider, then write
`result.message.content` when the result is truthy (`if result:` on the
returned `Choice` object, i.e. on `some`), else log a failure. -/
def processCase (provider : CaseItem → Option Choice) (acc : BatchOut)
    (item : CaseItem) : BatchOut :=
  if fsExists acc.fs item.resultFilePath then acc
  else
    let result := provider item
    let acc' : BatchOut :=
      { acc with providerCalls := acc.providerCalls + 1 }
    match result with
    | some choice =>
        { acc' with fs := fsWrite acc'.fs item.resultFilePath choice.content }
    | none =>
        { acc' with loggedFailures := acc'.loggedFailures ++ [item.resultFilePath] }

/-- The main loop over all work items. -/
def batchRun (provider : CaseItem → Option Choice) (items : List CaseItem)
    (fs0 : FS) : BatchOut :=
  items.foldl (processCase provider) ⟨fs0, 0, []⟩

/-! ## Timing Recorder (`df_execution_times` upsert) -/

/-- One row of the execution-times table. -/
structure TimeRow where
  number : Nat
  temperature : ℚ
  tryNum : Nat
  time : ℚ
deriving DecidableEq

/-- Key of a timing row. -/
abbrev TimeKey : Type := Nat × ℚ × Nat

/-- The pandas boolean mask `(number == n) & (temperature == temp) & (try == t)`. -/
def rowMatches (r : TimeRow) (k : TimeKey) : Bool :=
  decide (r.number = k.1 ∧ r.temperature = k.2.1 ∧ r.tryNum = k.2.2)

/-- Upsert from the main loop: if any row matches the key, assign the new time
to every matching row (`df.loc[mask, 'time'] = execution_time`); otherwise
append a new row (`pd.concat`). -/
def upsertTime (df : List TimeRow) (k : TimeKey) (newTime : ℚ) : List TimeRow :=
  if df.any (fun r => rowMatches r k) then
    df.map (fun r => if rowMatches r k then { r with time := newTime } else r)
  else
    df ++ [⟨k.1, k.2.1, k.2.2, newTime⟩]

/-- Number of rows matching a key. -/
def countKey (df : List TimeRow) (k : TimeKey) : Nat :=
  (df.filter (fun r => rowMatches r k)).length

/-! ## Heuristic section splitter (`process_folder` of the summarizer)

Lines are `List Char` (as produced by `readlines`, so a line normally keeps its
trailing newline); `items` is the 6-element list of section buffers. -/

/-- Python `line.strip()` (whitespace strip on both sides). -/
def pyStrip (l : List Char) : List Char :=
  ((l.dropWhile Char.isWhitespace).reverse.dropWhile Char.isWhitespace).reverse

/-- The literal marker `f'{current_item_index + 2}.'`. -/
def sectionMarker (idx : Nat) : List Char :=
  (toString (idx + 2)).data ++ ['.']

/-- The `for line in content` loop: when fewer than 5 increments have happened
and the stripped line contains the next marker, advance the section index; then
append the (unstripped) line to the current section's buffer. -/
def splitLoop : List (List Char) → Nat → List (List Char) → List (List Char)
  | [], _, items => items
  | line :: rest, idx, items =>
      let stripped := pyStrip line
      let idx' := if idx < 5 ∧ sectionMarker idx <:+: stripped then idx + 1 else idx
      splitLoop rest idx' (items.set idx' (items.getD idx' [] ++ line))

/-- Sections produced for one result file's lines. -/
def splitSections (content : List (List Char)) : List (List Char) :=
  splitLoop content 0 (List.replicate 6 [])

/-! ## Concrete instances used by witnesses and counterexamples -/

/-- Images are bare naturals in concrete runs. -/
def resize0 : List Nat → List Nat := fun l => l.map (· + 1)

/-- Call that always answers with the refusal phrase. -/
def refusalText : String := imSorryButICannot ++ " assist with that request."

def refusalCall : Nat → List Nat → ApiResult := fun _ _ => .ok refusalText

/-- Call that always raises a quota-exceeded error. -/
def quotaMsg : String := "Your credit balance is exceeded, please top up"

def quotaCall : Nat → List Nat → ApiResult := fun _ _ => .exn quotaMsg

/-- Call that always raises an image-parse error. -/
def parseErrMsg : String := "BadRequestError: image_parse_error while decoding"

def parseErrCall : Nat → List Nat → ApiResult := fun _ _ => .exn parseErrMsg

/-- Call that always answers with a plain text. -/
def plainCall : Nat → List Nat → ApiResult := fun _ _ => .ok "1. MR imaging."

/-- Call that always answers with a short text (Gemini soft failure). -/
def shortCall : Nat → List Nat → ApiResult := fun _ _ => .ok "bad"

/-- Initial client state used by concrete runs. -/
def s0 : ClientState Nat := initState "prompt" 0 [5]

/-- Size function that always fits the ceiling. -/
def szSmall : Nat → Nat → Nat := fun _ _ => 5

/-- Size function that never fits the ceiling. -/
def szHuge : Nat → Nat → Nat := fun _ _ => MAX_SIZE + 1

/-- Provider whose `Choice` carries an empty content string. -/
def emptyChoiceProvider : CaseItem → Option Choice := fun _ => some ⟨""⟩

/-- Concrete work items and filesystem for batch-runner runs. -/
def itemR : CaseItem := ⟨"r.txt"⟩

def itemA : CaseItem := ⟨"a.txt"⟩

def itemB : CaseItem := ⟨"b.txt"⟩

def fsAB : FS := [("a.txt", "x"), ("b.txt", "y")]

/-- Concrete timing key. -/
def keyT : TimeKey := (1, 0, 1)

lemma encodeLoop_ok_le {sz w h rfNum rfDen rem k s}
    (hok : encodeLoop sz w h rfNum rfDen rem k = Except.ok s) :
    s < MAX_SIZE := by
  induction rem generalizing k with
  | zero => simp [encodeLoop] at hok
  | succ n ih =>
      rw [encodeLoop] at hok
      by_cases hlt : sz (attemptDim w rfNum rfDen k) (attemptDim h rfNum rfDen k) < MAX_SIZE
      · rw [if_pos hlt] at hok
        cases hok
        exact hlt
      · rw [if_neg hlt] at hok
        exact ih hok

lemma encodeLoop_error_iff {sz w h rfNum rfDen rem k e}
    (herr : encodeLoop sz w h rfNum rfDen rem k = Except.error e) :
    ∀ j < rem, ¬ attemptSize sz w h rfNum rfDen (k + j) < MAX_SIZE := by
  induction rem generalizing k with
  | zero => intro j hj; omega
  | succ n ih =>
      rw [encodeLoop] at herr
      by_cases hlt : sz (attemptDim w rfNum rfDen k) (attemptDim h rfNum rfDen k) < MAX_SIZE
      · rw [if_pos hlt] at herr; cases herr
      · rw [if_neg hlt] at herr
        intro j hj
        rcases Nat.eq_zero_or_pos j with rfl | hpos
        · simpa [attemptSize] using hlt
        · have := ih herr (j - 1) (by omega)
          have hkj : k + 1 + (j - 1) = k + j := by omega
          rwa [hkj] at this

lemma encodeLoop_fails_of_all_big {sz w h rfNum rfDen} (rem k : Nat)
    (hbig : ∀ j < rem, ¬ attemptSize sz w h rfNum rfDen (k + j) < MAX_SIZE) :
    encodeLoop sz w h rfNum rfDen rem k =
      Except.error "Unable to reduce image size within 5 attempts" := by
  induction rem generalizing k with
  | zero => simp [encodeLoop]
  | succ n ih =>
      rw [encodeLoop]
      have h0 : ¬ sz (attemptDim w rfNum rfDen k) (attemptDim h rfNum rfDen k) < MAX_SIZE := by
        simpa [attemptSize] using hbig 0 (by omega)
      rw [if_neg h0]
      exact ih (k + 1) fun j hj => by
        have := hbig (j + 1) (by omega)
        have hkj : k + (j + 1) = k + 1 + j := by omega
        rwa [hkj] at this

lemma encodeLoop_ok_attempt {sz w h rfNum rfDen rem k s}
    (hok : encodeLoop sz w h rfNum rfDen rem k = Except.ok s) :
    ∃ j, j < rem ∧ s = attemptSize sz w h rfNum rfDen (k + j) ∧
      ∀ i, i < j → ¬ attemptSize sz w h rfNum rfDen (k + i) < MAX_SIZE := by
  induction rem generalizing k with
  | zero => simp [encodeLoop] at hok
  | succ n ih =>
      rw [encodeLoop] at hok
      by_cases hlt : sz (attemptDim w rfNum rfDen k) (attemptDim h rfNum rfDen k) < MAX_SIZE
      · rw [if_pos hlt] at hok
        cases hok
        exact ⟨0, by omega, by simp [attemptSize], by omega⟩
      · rw [if_neg hlt] at hok
        obtain ⟨j, hj, hs, hall⟩ := ih hok
        refine ⟨j + 1, by omega, ?_, ?_⟩
        · rwa [show k + (j + 1) = k + 1 + j by omega]
        · intro i hi
          rcases Nat.eq_zero_or_pos i with rfl | hpos
          · simpa [attemptSize] using hlt
          · have := hall (i - 1) (by omega)
            rwa [show k + 1 + (i - 1) = k + i by omega] at this

/-! ## Splitter lemmas -/

lemma splitLoop_length (content : List (List Char)) :
    ∀ (idx : Nat) (items : List (List Char)),
      (splitLoop content idx items).length = items.length := by
  induction content with
  | nil => intro idx items; rfl
  | cons line rest ih =>
      intro idx items
      simp only [splitLoop]
      rw [ih]
      exact items.length_set ..

lemma getD_set_ne {α : Type} (l : List α) (i j : Nat) (x d : α) (h : i ≠ j) :
    (l.set i x).getD j d = l.getD j d := by
  induction l generalizing i j with
  | nil => rfl
  | cons a t ih =>
      cases i with
      | zero =>
          cases j with
          | zero => omega
          | succ m => rfl
      | succ n =>
          cases j with
          | zero => rfl
          | succ m =>
              simp only [List.set_cons_succ, List.getD_cons_succ]
              exact ih n m (by omega)

lemma getD_replicate_nil {α : Type} (n j : Nat) :
    (List.replicate n ([] : List α)).getD j [] = [] := by
  induction n generalizing j with
  | zero => rfl
  | succ m ih =>
      cases j with
      | zero => rfl
      | succ i => simp [List.replicate, ih i]

lemma flatten_eq_nil_of_forall {α : Type} (l : List (List α))
    (h : ∀ j, l.getD j [] = []) : l.flatten = [] := by
  induction l with
  | nil => rfl
  | cons a t ih =>
      have ha : a = [] := h 0
      have ht : ∀ j, t.getD j [] = [] := fun j => h (j + 1)
      simp [ha, ih ht]

lemma flatten_set_append {α : Type} (items : List (List α)) (line : List α) :
    ∀ (i : Nat), i < items.length → (∀ j, i < j → items.getD j [] = []) →
      (items.set i (items.getD i [] ++ line)).flatten = items.flatten ++ line := by
  induction items with
  | nil => intro i hi _; simp at hi
  | cons a t ih =>
      intro i hi hafter
      cases i with
      | zero =>
          have ht : ∀ j, t.getD j [] = [] := fun j => hafter (j + 1) (by omega)
          simp [flatten_eq_nil_of_forall t ht]
      | succ k =>
          have hk : k < t.length := by simpa using hi
          have ht : ∀ j, k < j → t.getD j [] = [] :=
            fun j hj => hafter (j + 1) (by omega)
          have hrec := ih k hk ht
          rw [List.getD_eq_getElem?_getD] at hrec
          simp [hrec]

lemma splitLoop_flatten (content : List (List Char)) :
    ∀ (idx : Nat) (items : List (List Char)), items.length = 6 → idx < 6 →
      (∀ j, idx < j → items.getD j [] = []) →
      (splitLoop content idx items).flatten = items.flatten ++ content.flatten := by
  induction content with
  | nil => intro idx items _ _ _; simp [splitLoop]
  | cons line rest ih =>
      intro idx items hlen hidx hafter
      simp only [splitLoop]
      set idx' := if idx < 5 ∧ sectionMarker idx <:+: pyStrip line then idx + 1 else idx
        with hidxdef
      have hidx'lt : idx' < 6 := by
        rw [hidxdef]; split
        · omega
        · exact hidx
      have hle : idx ≤ idx' := by
        rw [hidxdef]; split <;> omega
      have hafter' : ∀ j, idx' < j → items.getD j [] = [] :=
        fun j hj => hafter j (by omega)
      have hset := flatten_set_append items line idx' (by omega) hafter'
      rw [ih idx' _ (by simp [hlen]) hidx'lt ?_]
      · rw [hset]
        simp
      · intro j hj
        rw [getD_set_ne _ _ _ _ _ (by omega)]
        exact hafter' j hj

/-! ## Case-folding facts

The Gemini client tests `"SAFETY" in str(e).lower()`: an uppercase literal
searched inside a lowercased string. The following shows no lowercased string
can contain it. -/

lemma char_toNat_ofNat_valid {m : Nat} (hm : m < 55296) :
    (Char.ofNat m).toNat = m := by
  have hv : m.isValidChar := Or.inl hm
  rw [Char.ofNat, dif_pos hv]
  rfl

lemma toLower_ne_S (c : Char) : Char.toLower c ≠ 'S' := by
  intro hEq
  simp only [Char.toLower] at hEq
  split at hEq
  case isTrue h =>
      have h1 : (Char.ofNat (c.toNat + 32)).toNat = c.toNat + 32 :=
        char_toNat_ofNat_valid (by omega)
      rw [hEq] at h1
      have h2 : (83 : Nat) = c.toNat + 32 := h1
      omega
  case isFalse h =>
      rw [hEq] at h
      exact h (by decide)

lemma pyLower_no_SAFETY (msg : String) :
    pyContains (pyLower msg) "SAFETY" = false := by
  rw [pyContains]
  simp only [decide_eq_false_iff_not]
  intro hinf
  have hmem : 'S' ∈ (pyLower msg).data := hinf.subset (by decide)
  rw [pyLower] at hmem
  obtain ⟨c, _, hc⟩ := List.mem_map.1 hmem
  exact toLower_ne_S c hc

/-! ## Client loop lemmas -/

section Clients

variable {Img : Type}

lemma gptStep_done (call : Nat → List Img → ApiResult)
    (resize : List Img → List Img) (s : ClientState Img)
    (hs : s.result.isSome) : gptStep call resize s = s := by
  rcases s with ⟨a, p, t, im, r⟩
  cases r with
  | none => simp at hs
  | some f => rfl

lemma geminiStep_done (call : Nat → List Img → ApiResult)
    (r09 r07 : List Img → List Img) (s : ClientState Img)
    (hs : s.result.isSome) : geminiStep call r09 r07 s = s := by
  rcases s with ⟨a, p, t, im, r⟩
  cases r with
  | none => simp at hs
  | some f => rfl

lemma claudeStep_done (call : Nat → List Img → ApiResult)
    (resize : List Img → List Img) (s : ClientState Img)
    (hs : s.result.isSome) : claudeStep call resize s = s := by
  rcases s with ⟨a, p, t, im, r⟩
  cases r with
  | none => simp at hs
  | some f => rfl

lemma gptStep_attempt_of_none (call : Nat → List Img → ApiResult)
    (resize : List Img → List Img) (s : ClientState Img)
    (h : s.result = none) (h2 : (gptStep call resize s).result = none) :
    (gptStep call resize s).attempt = s.attempt + 1 := by
  simp only [gptStep, h] at h2 ⊢
  by_cases hlt : s.attempt < MAX_ATTEMPTS
  · rw [if_pos hlt] at h2 ⊢
    cases hc : call s.attempt s.images with
    | ok text =>
        simp only [hc] at h2 ⊢
        by_cases href : pyStartsWith text imSorryBut = true
        · rw [if_pos href]
        · rw [if_neg href] at h2
          simp at h2
    | exn msg =>
        simp only [hc]
        split <;> rfl
  · rw [if_neg hlt] at h2
    simp at h2

lemma geminiStep_attempt_of_none (call : Nat → List Img → ApiResult)
    (r09 r07 : List Img → List Img) (s : ClientState Img)
    (h : s.result = none) (h2 : (geminiStep call r09 r07 s).result = none) :
    (geminiStep call r09 r07 s).attempt = s.attempt + 1 := by
  simp only [geminiStep, h] at h2 ⊢
  by_cases hlt : s.attempt < MAX_ATTEMPTS
  · rw [if_pos hlt] at h2 ⊢
    cases hc : call s.attempt s.images with
    | ok text =>
        simp only [hc] at h2 ⊢
        by_cases hshort : text.length < 10
        · rw [if_pos hshort]
        · rw [if_neg hshort] at h2
          simp at h2
    | exn msg =>
        simp only [hc]
        split <;> rfl
  · rw [if_neg hlt] at h2
    simp at h2

lemma claudeStep_attempt_of_none (call : Nat → List Img → ApiResult)
    (resize : List Img → List Img) (s : ClientState Img)
    (h : s.result = none) (h2 : (claudeStep call resize s).result = none) :
    (claudeStep call resize s).attempt = s.attempt + 1 := by
  simp only [claudeStep, h] at h2 ⊢
  by_cases hlt : s.attempt < MAX_ATTEMPTS
  · rw [if_pos hlt] at h2 ⊢
    cases hc : call s.attempt s.images with
    | ok text =>
        simp only [hc] at h2 ⊢
        by_cases href : pyStartsWith text imSorryBut = true
        · rw [if_pos href]
        · rw [if_neg href] at h2
          simp at h2
    | exn msg =>
        simp only [hc] at h2 ⊢
        by_cases hex : pyContains (pyLower msg) "exceeded" = true
        · rw [if_pos hex] at h2
          simp at h2
        · rw [if_neg hex] at h2 ⊢
          split <;> rfl
  · rw [if_neg hlt] at h2
    simp at h2

lemma gptStep_finishes (call : Nat → List Img → ApiResult)
    (resize : List Img → List Img) (s : ClientState Img)
    (h : s.result = none) (h10 : MAX_ATTEMPTS ≤ s.attempt) :
    (gptStep call resize s).result.isSome := by
  simp only [gptStep, h]
  rw [if_neg (by omega)]
  simp

lemma geminiStep_finishes (call : Nat → List Img → ApiResult)
    (r09 r07 : List Img → List Img) (s : ClientState Img)
    (h : s.result = none) (h10 : MAX_ATTEMPTS ≤ s.attempt) :
    (geminiStep call r09 r07 s).result.isSome := by
  simp only [geminiStep, h]
  rw [if_neg (by omega)]
  simp

lemma claudeStep_finishes (call : Nat → List Img → ApiResult)
    (resize : List Img → List Img) (s : ClientState Img)
    (h : s.result = none) (h10 : MAX_ATTEMPTS ≤ s.attempt) :
    (claudeStep call resize s).result.isSome := by
  simp only [claudeStep, h]
  rw [if_neg (by omega)]
  simp

lemma iterate_of_done (step : ClientState Img → ClientState Img)
    (hA : ∀ s, s.result.isSome → step s = s) (n : Nat) (s : ClientState Img)
    (hs : s.result.isSome) : step^[n] s = s := by
  induction n with
  | zero => rfl
  | succ m ih => rw [Function.iterate_succ_apply, hA s hs, ih]

lemma iterate_result_isSome (step : ClientState Img → ClientState Img)
    (hA : ∀ s, s.result.isSome → step s = s)
    (hB : ∀ s, s.result = none → (step s).result = none →
      (step s).attempt = s.attempt + 1)
    (hC : ∀ s, s.result = none → MAX_ATTEMPTS ≤ s.attempt →
      (step s).result.isSome) :
    ∀ (n : Nat) (s : ClientState Img), 1 ≤ n →
      MAX_ATTEMPTS + 1 ≤ s.attempt + n → ((step^[n]) s).result.isSome := by
  intro n
  induction n with
  | zero => intro s h1 _; omega
  | succ m ih =>
      intro s _ h2
      cases hres : s.result with
      | none =>
          cases hres2 : (step s).result with
          | none =>
              have hatt := hB s hres hres2
              have hm1 : 1 ≤ m := by
                rcases Nat.eq_zero_or_pos m with rfl | h
                · exfalso
                  have h10 : MAX_ATTEMPTS ≤ s.attempt := by omega
                  have hfin := hC s hres h10
                  rw [hres2] at hfin
                  simp at hfin
                · exact h
              rw [Function.iterate_succ_apply]
              exact ih (step s) hm1 (by omega)
          | some g =>
              rw [Function.iterate_succ_apply,
                iterate_of_done step hA m (step s) (by simp [hres2]), hres2]
              rfl
      | some f =>
          rw [iterate_of_done step hA (m + 1) s (by simp [hres]), hres]
          rfl

end Clients

section ClientInvariants

variable {Img : Type}

lemma iterate_preserves (step : ClientState Img → ClientState Img)
    (P : ClientState Img → Prop) (hstep : ∀ s, P s → P (step s)) :
    ∀ (n : Nat) (s : ClientState Img), P s → P ((step^[n]) s) := by
  intro n
  induction n with
  | zero => intro s hs; exact hs
  | succ m ih =>
      intro s hs
      rw [Function.iterate_succ_apply]
      exact ih (step s) (hstep s hs)

lemma startsWith_trans_of_ic (t : String)
    (h : pyStartsWith t imSorryButICannot = true) :
    pyStartsWith t imSorryBut = true := by
  simp only [pyStartsWith, decide_eq_true_eq] at h ⊢
  exact List.IsPrefix.trans (by decide) h

lemma gptStep_answer_refusal_free (call : Nat → List Img → ApiResult)
    (resize : List Img → List Img) (s : ClientState Img)
    (hs : ∀ t, s.result = some (.answer t) → pyStartsWith t imSorryBut = false) :
    ∀ t, (gptStep call resize s).result = some (.answer t) →
      pyStartsWith t imSorryBut = false := by
  intro t ht
  cases hres : s.result with
  | some f =>
      rw [gptStep_done call resize s (by simp [hres])] at ht
      exact hs t ht
  | none =>
      simp only [gptStep, hres] at ht
      by_cases hlt : s.attempt < MAX_ATTEMPTS
      · rw [if_pos hlt] at ht
        cases hc : call s.attempt s.images with
        | ok text =>
            simp only [hc] at ht
            by_cases href : pyStartsWith text imSorryBut = true
            · rw [if_pos href] at ht
              simp [hres] at ht
            · rw [if_neg href] at ht
              simp only [Option.some.injEq, Final.answer.injEq] at ht
              subst ht
              simpa using href
        | exn msg =>
            simp only [hc] at ht
            split at ht <;> simp [hres] at ht
      · rw [if_neg hlt] at ht
        simp at ht

lemma claudeStep_answer_refusal_free (call : Nat → List Img → ApiResult)
    (resize : List Img → List Img) (s : ClientState Img)
    (hs : ∀ t, s.result = some (.answer t) → pyStartsWith t imSorryBut = false) :
    ∀ t, (claudeStep call resize s).result = some (.answer t) →
      pyStartsWith t imSorryBut = false := by
  intro t ht
  cases hres : s.result with
  | some f =>
      rw [claudeStep_done call resize s (by simp [hres])] at ht
      exact hs t ht
  | none =>
      simp only [claudeStep, hres] at ht
      by_cases hlt : s.attempt < MAX_ATTEMPTS
      · rw [if_pos hlt] at ht
        cases hc : call s.attempt s.images with
        | ok text =>
            simp only [hc] at ht
            by_cases href : pyStartsWith text imSorryBut = true
            · rw [if_pos href] at ht
              simp [hres] at ht
            · rw [if_neg href] at ht
              simp only [Option.some.injEq, Final.answer.injEq] at ht
              subst ht
              simpa using href
        | exn msg =>
            simp only [hc] at ht
            by_cases hex : pyContains (pyLower msg) "exceeded" = true
            · rw [if_pos hex] at ht
              simp at ht
            · rw [if_neg hex] at ht
              split at ht <;> simp [hres] at ht
      · rw [if_neg hlt] at ht
        simp at ht

lemma gptStep_noResult_inv (call : Nat → List Img → ApiResult)
    (resize : List Img → List Img)
    (hcall : ∀ a im t, call a im = .ok t → pyStartsWith t imSorryBut = true)
    (s : ClientState Img)
    (hs : s.result = none ∨ s.result = some .noResult) :
    (gptStep call resize s).result = none ∨
      (gptStep call resize s).result = some .noResult := by
  cases hs with
  | inr h =>
      rw [gptStep_done call resize s (by simp [h])]
      exact Or.inr h
  | inl h =>
      simp only [gptStep, h]
      by_cases hlt : s.attempt < MAX_ATTEMPTS
      · rw [if_pos hlt]
        cases hc : call s.attempt s.images with
        | ok text =>
            simp only [hc]
            rw [if_pos (hcall _ _ _ hc)]
            exact Or.inl rfl
        | exn msg =>
            simp only [hc]
            split
            · exact Or.inl rfl
            · exact Or.inl rfl
      · rw [if_neg hlt]
        exact Or.inr rfl

lemma geminiStep_noResult_inv (call : Nat → List Img → ApiResult)
    (r09 r07 : List Img → List Img)
    (hcall : ∀ a im t, call a im = .ok t → t.length < 10)
    (s : ClientState Img)
    (hs : s.result = none ∨ s.result = some .noResult) :
    (geminiStep call r09 r07 s).result = none ∨
      (geminiStep call r09 r07 s).result = some .noResult := by
  cases hs with
  | inr h =>
      rw [geminiStep_done call r09 r07 s (by simp [h])]
      exact Or.inr h
  | inl h =>
      simp only [geminiStep, h]
      by_cases hlt : s.attempt < MAX_ATTEMPTS
      · rw [if_pos hlt]
        cases hc : call s.attempt s.images with
        | ok text =>
            simp only [hc]
            rw [if_pos (hcall _ _ _ hc)]
            exact Or.inl rfl
        | exn msg =>
            simp only [hc]
            split
            · exact Or.inl rfl
            · exact Or.inl rfl
      · rw [if_neg hlt]
        exact Or.inr rfl

lemma claudeStep_noResult_inv (call : Nat → List Img → ApiResult)
    (resize : List Img → List Img)
    (hcall : ∀ a im, ∃ t, call a im = .ok t ∧ pyStartsWith t imSorryBut = true)
    (s : ClientState Img)
    (hs : s.result = none ∨ s.result = some .noResult) :
    (claudeStep call resize s).result = none ∨
      (claudeStep call resize s).result = some .noResult := by
  cases hs with
  | inr h =>
      rw [claudeStep_done call resize s (by simp [h])]
      exact Or.inr h
  | inl h =>
      simp only [claudeStep, h]
      by_cases hlt : s.attempt < MAX_ATTEMPTS
      · rw [if_pos hlt]
        obtain ⟨t0, hok, href⟩ := hcall s.attempt s.images
        simp only [hok]
        rw [if_pos href]
        exact Or.inl rfl
      · rw [if_neg hlt]
        exact Or.inr rfl

lemma gptStep_keeps_prompt_temp (call : Nat → List Img → ApiResult)
    (resize : List Img → List Img) (s : ClientState Img) :
    (gptStep call resize s).prompt = s.prompt ∧
      (gptStep call resize s).temperature = s.temperature := by
  unfold gptStep
  repeat' split
  all_goals exact ⟨rfl, rfl⟩

lemma geminiStep_keeps_prompt_temp (call : Nat → List Img → ApiResult)
    (r09 r07 : List Img → List Img) (s : ClientState Img) :
    (geminiStep call r09 r07 s).prompt = s.prompt ∧
      (geminiStep call r09 r07 s).temperature = s.temperature := by
  unfold geminiStep
  repeat' split
  all_goals exact ⟨rfl, rfl⟩

lemma claudeStep_keeps_prompt_temp (call : Nat → List Img → ApiResult)
    (resize : List Img → List Img) (s : ClientState Img) :
    (claudeStep call resize s).prompt = s.prompt ∧
      (claudeStep call resize s).temperature = s.temperature := by
  unfold claudeStep
  repeat' split
  all_goals exact ⟨rfl, rfl⟩

end ClientInvariants

/-! ## Claim theorems: image encoder and splitter -/

/-- C1: for every source image (abstracted by its serialized size function),
`process_and_encode_image` either returns an encoding whose byte size does not
exceed the 20 MiB ceiling, produced at one of at most 5 attempts whose
dimensions shrink geometrically by the resize factor (all earlier attempts
having failed the size test), or — when no attempt satisfies the ceiling —
raises `ValueError` after all 5 attempts have failed. -/
theorem C1_encoder_size_bounded (sz : Nat → Nat → Nat) (w h : Nat) :
    (∀ s, process_and_encode_image sz w h 9 10 = Except.ok s →
        s ≤ MAX_SIZE ∧ ∃ k, k < 5 ∧ s = attemptSize sz w h 9 10 k ∧
          ∀ j, j < k → ¬ attemptSize sz w h 9 10 j < MAX_SIZE) ∧
    ((∀ k, k < 5 → MAX_SIZE < attemptSize sz w h 9 10 k) →
        process_and_encode_image sz w h 9 10 =
          Except.error "Unable to reduce image size within 5 attempts") ∧
    (∀ e, process_and_encode_image sz w h 9 10 = Except.error e →
        ∀ k, k < 5 → MAX_SIZE ≤ attemptSize sz w h 9 10 k) := by
  refine ⟨?_, ?_, ?_⟩
  · intro s hok
    refine ⟨Nat.le_of_lt (encodeLoop_ok_le hok), ?_⟩
    obtain ⟨j, hj, hs, hall⟩ := encodeLoop_ok_attempt hok
    exact ⟨j, hj, by simpa using hs, fun i hi => by simpa using hall i hi⟩
  · intro hbig
    exact encodeLoop_fails_of_all_big 5 0 fun j hj => by
      have := hbig j (by omega)
      simp only [Nat.zero_add]
      omega
  · intro e herr k hk
    have := encodeLoop_error_iff herr k hk
    simp only [Nat.zero_add] at this
    omega

/-- C1 witness: a size function that always fits yields an accepted first
attempt within the ceiling; a size function that never fits makes the encoder
fail with the source's `ValueError` message after its 5 attempts. -/
theorem C1_encoder_size_bounded_witness :
    ((5 : Nat) ≤ MAX_SIZE ∧ ∃ k, k < 5 ∧ (5 : Nat) = attemptSize szSmall 100 100 9 10 k ∧
        ∀ j, j < k → ¬ attemptSize szSmall 100 100 9 10 j < MAX_SIZE) ∧
    process_and_encode_image szHuge 100 100 9 10 =
      Except.error "Unable to reduce image size within 5 attempts" :=
  ⟨(C1_encoder_size_bounded szSmall 100 100).1 5 rfl,
   (C1_encoder_size_bounded szHuge 100 100).2.1 (by decide)⟩

/-- C2: on the file whose lines are `1. A` … `6. F` the heuristic splitter
returns exactly those 6 sections, in order, each non-empty and free of the
neighbouring lines; in general the loop keeps exactly 6 buffers, and one step
increments the 0-based index (capped at 5) exactly when the stripped line
contains the literal marker `{next_index+2}.`, accumulating the line —
marker line included — into the section current after that increment. -/
theorem C2_splitter_six_ordered_sections :
    splitSections (["1. A", "2. B", "3. C", "4. D", "5. E", "6. F"].map String.data) =
      ["1. A", "2. B", "3. C", "4. D", "5. E", "6. F"].map String.data ∧
    (∀ content : List (List Char), (splitSections content).length = 6) ∧
    (∀ (line : List Char) (rest : List (List Char)) (idx : Nat)
        (items : List (List Char)),
      splitLoop (line :: rest) idx items =
        splitLoop rest
          (if idx < 5 ∧ sectionMarker idx <:+: pyStrip line then idx + 1 else idx)
          (items.set
            (if idx < 5 ∧ sectionMarker idx <:+: pyStrip line then idx + 1 else idx)
            (items.getD
              (if idx < 5 ∧ sectionMarker idx <:+: pyStrip line then idx + 1 else idx)
              [] ++ line))) := by
  refine ⟨by decide, ?_, ?_⟩
  · intro content
    rw [splitSections, splitLoop_length]
    rfl
  · intro line rest idx items
    simp only [splitLoop]

/-- C9: for every input file, concatenating the 6 sections produced by the
heuristic splitter reproduces the file's lines exactly — every line lands in
exactly one section, none dropped and none duplicated, whatever markers
occur. -/
theorem C9_splitter_concat_preserves_content (content : List (List Char)) :
    (splitSections content).flatten = content.flatten := by
  have h := splitLoop_flatten content 0 (List.replicate 6 []) (by simp) (by omega)
    (fun j _ => getD_replicate_nil 6 j)
  simpa [splitSections] using h

/-! ## Claim theorems: provider request clients -/

/-- C3 counterexample: a refusal-phrase response — a soft failure — is retried
by the GPT-4o client with the images left exactly as they were (no re-encoding),
refuting the claim that every soft failure re-encodes the images before the
retry. -/
theorem C3_counterexample_refusal_not_reencoded :
    (gptStep refusalCall resize0 s0).result = none ∧
    (gptStep refusalCall resize0 s0).attempt = 1 ∧
    (gptStep refusalCall resize0 s0).images = s0.images ∧
    resize0 s0.images ≠ s0.images := by decide

/-- C3 amended: images are re-encoded before the retry only on the
`image_parse_error` exception paths of the GPT-4o and Claude clients (with
attempts remaining) and on the Gemini too-short-response path; refusal-phrase
soft failures are retried with the images unchanged, and the Gemini safety
branch never fires (its uppercase literal cannot occur in a lowercased
message), so Gemini exception retries also leave the images unchanged; the
prompt and temperature are unchanged by every step of every client. -/
theorem C3_amended_reencode_paths (Img : Type)
    (call : Nat → List Img → ApiResult)
    (resize r09 r07 : List Img → List Img) (s : ClientState Img)
    (msg text : String) :
    (s.result = none → s.attempt < MAX_ATTEMPTS →
      call s.attempt s.images = .exn msg →
      pyContains (pyLower msg) "image_parse_error" = true →
      s.attempt < MAX_ATTEMPTS - 1 →
      (gptStep call resize s).images = resize s.images ∧
        (gptStep call resize s).result = none) ∧
    (s.result = none → s.attempt < MAX_ATTEMPTS →
      call s.attempt s.images = .exn msg →
      pyContains (pyLower msg) "exceeded" = false →
      pyContains (pyLower msg) "image_parse_error" = true →
      s.attempt < MAX_ATTEMPTS - 1 →
      (claudeStep call resize s).images = resize s.images ∧
        (claudeStep call resize s).result = none) ∧
    (s.result = none → s.attempt < MAX_ATTEMPTS →
      call s.attempt s.images = .ok text → text.length < 10 →
      (geminiStep call r09 r07 s).images = r09 s.images ∧
        (geminiStep call r09 r07 s).result = none) ∧
    (s.result = none → s.attempt < MAX_ATTEMPTS →
      call s.attempt s.images = .ok text →
      pyStartsWith text imSorryBut = true →
      (gptStep call resize s).images = s.images ∧
        (gptStep call resize s).result = none ∧
        (claudeStep call resize s).images = s.images ∧
        (claudeStep call resize s).result = none) ∧
    (s.result = none → call s.attempt s.images = .exn msg →
      (geminiStep call r09 r07 s).images = s.images) ∧
    ((gptStep call resize s).prompt = s.prompt ∧
      (gptStep call resize s).temperature = s.temperature ∧
      (geminiStep call r09 r07 s).prompt = s.prompt ∧
      (geminiStep call r09 r07 s).temperature = s.temperature ∧
      (claudeStep call resize s).prompt = s.prompt ∧
      (claudeStep call resize s).temperature = s.temperature) := by
  refine ⟨?_, ?_, ?_, ?_, ?_, ?_⟩
  · intro h hlt hc hpe h9
    simp only [gptStep, h]
    rw [if_pos hlt]
    simp only [hc]
    rw [if_pos ⟨hpe, h9⟩]
    exact ⟨rfl, rfl⟩
  · intro h hlt hc hexf hpe h9
    simp only [claudeStep, h]
    rw [if_pos hlt]
    simp only [hc]
    rw [if_neg (by simp [hexf]), if_pos ⟨hpe, h9⟩]
    exact ⟨rfl, rfl⟩
  · intro h hlt hc hshort
    simp only [geminiStep, h]
    rw [if_pos hlt]
    simp only [hc]
    rw [if_pos hshort]
    exact ⟨rfl, rfl⟩
  · intro h hlt hc href
    refine ⟨?_, ?_, ?_, ?_⟩
    · simp only [gptStep, h]
      rw [if_pos hlt]
      simp only [hc]
      rw [if_pos href]
    · simp only [gptStep, h]
      rw [if_pos hlt]
      simp only [hc]
      rw [if_pos href]
    · simp only [claudeStep, h]
      rw [if_pos hlt]
      simp only [hc]
      rw [if_pos href]
    · simp only [claudeStep, h]
      rw [if_pos hlt]
      simp only [hc]
      rw [if_pos href]
  · intro h hc
    simp only [geminiStep, h]
    by_cases hlt : s.attempt < MAX_ATTEMPTS
    · rw [if_pos hlt]
      simp only [hc]
      rw [if_neg (by rintro ⟨hsafe, -⟩; rw [pyLower_no_SAFETY msg] at hsafe; cases hsafe)]
    · rw [if_neg hlt]
  · exact ⟨(gptStep_keeps_prompt_temp call resize s).1,
      (gptStep_keeps_prompt_temp call resize s).2,
      (geminiStep_keeps_prompt_temp call r09 r07 s).1,
      (geminiStep_keeps_prompt_temp call r09 r07 s).2,
      (claudeStep_keeps_prompt_temp call resize s).1,
      (claudeStep_keeps_prompt_temp call resize s).2⟩

/-- C3 amended witness: the GPT-4o parse-error path re-encodes, the Gemini
short-response path re-encodes, the GPT-4o refusal path does not, a Gemini
exception leaves the images unchanged, and the Claude parse-error path
re-encodes, all at concrete inputs. -/
theorem C3_amended_reencode_paths_witness :
    (gptStep parseErrCall resize0 s0).images = resize0 s0.images ∧
    (geminiStep shortCall resize0 resize0 s0).images = resize0 s0.images ∧
    (gptStep refusalCall resize0 s0).images = s0.images ∧
    (geminiStep quotaCall resize0 resize0 s0).images = s0.images ∧
    (claudeStep parseErrCall resize0 s0).images = resize0 s0.images := by
  refine ⟨?_, ?_, ?_, ?_, ?_⟩
  · exact ((C3_amended_reencode_paths Nat parseErrCall resize0 resize0 resize0 s0
      parseErrMsg "").1 rfl (by decide) rfl (by decide) (by decide)).1
  · exact ((C3_amended_reencode_paths Nat shortCall resize0 resize0 resize0 s0
      "" "bad").2.2.1 rfl (by decide) rfl (by decide)).1
  · exact ((C3_amended_reencode_paths Nat refusalCall resize0 resize0 resize0 s0
      "" refusalText).2.2.2.1 rfl (by decide) rfl (by decide)).1
  · exact (C3_amended_reencode_paths Nat quotaCall resize0 resize0 resize0 s0
      quotaMsg "").2.2.2.2.1 rfl rfl
  · exact ((C3_amended_reencode_paths Nat parseErrCall resize0 resize0 resize0 s0
      parseErrMsg "").2.1 rfl (by decide) rfl (by decide) (by decide) (by decide)).1

/-- C4 counterexample: the Gemini client has no refusal check (only a length
check), so a response text starting with the refusal phrase is returned as the
client's final result, refuting the claim for every Provider Request Client. -/
theorem C4_counterexample_gemini_returns_refusal :
    (runClient (geminiStep refusalCall resize0 resize0) s0).result =
      some (.answer refusalText) ∧
    pyStartsWith refusalText imSorryButICannot = true := by decide

/-- C4 amended: for the GPT-4o and Claude clients a response text beginning
with the refusal phrase is never returned as the final result — every reachable
final answer lacks that prefix — and when every response carries the refusal
prefix the client returns the absent result after exhausting its 10 attempts.
The Gemini client does return such texts (see the counterexample). -/
theorem C4_amended_refusal_never_final (Img : Type)
    (call : Nat → List Img → ApiResult) (resize : List Img → List Img)
    (p : String) (temp : ℚ) (imgs : List Img) :
    (∀ n t, ((gptStep call resize)^[n] (initState p temp imgs)).result =
        some (.answer t) → pyStartsWith t imSorryButICannot = false) ∧
    (∀ n t, ((claudeStep call resize)^[n] (initState p temp imgs)).result =
        some (.answer t) → pyStartsWith t imSorryButICannot = false) ∧
    ((∀ a im, ∃ t, call a im = .ok t ∧ pyStartsWith t imSorryBut = true) →
      (runClient (gptStep call resize) (initState p temp imgs)).result =
          some .noResult ∧
      (runClient (claudeStep call resize) (initState p temp imgs)).result =
          some .noResult) := by
  refine ⟨?_, ?_, ?_⟩
  · intro n t ht
    have hinv := iterate_preserves (gptStep call resize)
      (fun s => ∀ t, s.result = some (.answer t) →
        pyStartsWith t imSorryBut = false)
      (fun s hs => gptStep_answer_refusal_free call resize s hs)
      n (initState p temp imgs) (by simp [initState])
    have hbase := hinv t ht
    cases hic : pyStartsWith t imSorryButICannot with
    | false => rfl
    | true => simp [startsWith_trans_of_ic t hic] at hbase
  · intro n t ht
    have hinv := iterate_preserves (claudeStep call resize)
      (fun s => ∀ t, s.result = some (.answer t) →
        pyStartsWith t imSorryBut = false)
      (fun s hs => claudeStep_answer_refusal_free call resize s hs)
      n (initState p temp imgs) (by simp [initState])
    have hbase := hinv t ht
    cases hic : pyStartsWith t imSorryButICannot with
    | false => rfl
    | true => simp [startsWith_trans_of_ic t hic] at hbase
  · intro hcall
    have hweak : ∀ a im t, call a im = .ok t →
        pyStartsWith t imSorryBut = true := by
      intro a im t h
      obtain ⟨t0, h0, href⟩ := hcall a im
      rw [h0] at h
      injection h with h
      subst h
      exact href
    constructor
    · have hsome := iterate_result_isSome (gptStep call resize)
        (fun s hs => gptStep_done call resize s hs)
        (fun s h h2 => gptStep_attempt_of_none call resize s h h2)
        (fun s h h10 => gptStep_finishes call resize s h h10)
        (MAX_ATTEMPTS + 1) (initState p temp imgs) (by omega)
        (by simp [initState])
      have hinv := iterate_preserves (gptStep call resize)
        (fun s => s.result = none ∨ s.result = some .noResult)
        (fun s hs => gptStep_noResult_inv call resize hweak s hs)
        (MAX_ATTEMPTS + 1) (initState p temp imgs) (Or.inl rfl)
      rw [runClient]
      rcases hinv with h | h
      · rw [h] at hsome
        simp at hsome
      · exact h
    · have hsome := iterate_result_isSome (claudeStep call resize)
        (fun s hs => claudeStep_done call resize s hs)
        (fun s h h2 => claudeStep_attempt_of_none call resize s h h2)
        (fun s h h10 => claudeStep_finishes call resize s h h10)
        (MAX_ATTEMPTS + 1) (initState p temp imgs) (by omega)
        (by simp [initState])
      have hinv := iterate_preserves (claudeStep call resize)
        (fun s => s.result = none ∨ s.result = some .noResult)
        (fun s hs => claudeStep_noResult_inv call resize hcall s hs)
        (MAX_ATTEMPTS + 1) (initState p temp imgs) (Or.inl rfl)
      rw [runClient]
      rcases hinv with h | h
      · rw [h] at hsome
        simp at hsome
      · exact h

/-- C4 amended witness: a plain answer reached after one attempt indeed lacks
the refusal prefix, and an always-refusing call drives both the GPT-4o and the
Claude clients to the absent result. -/
theorem C4_amended_refusal_never_final_witness :
    pyStartsWith "1. MR imaging." imSorryButICannot = false ∧
    (runClient (gptStep refusalCall resize0) s0).result = some .noResult ∧
    (runClient (claudeStep refusalCall resize0) s0).result = some .noResult := by
  refine ⟨?_, ?_, ?_⟩
  · exact (C4_amended_refusal_never_final Nat plainCall resize0 "prompt" 0 [5]).1
      (MAX_ATTEMPTS + 1) "1. MR imaging." (by decide)
  · exact ((C4_amended_refusal_never_final Nat refusalCall resize0 "prompt" 0 [5]).2.2
      (fun a im => ⟨refusalText, rfl, by decide⟩)).1
  · exact ((C4_amended_refusal_never_final Nat refusalCall resize0 "prompt" 0 [5]).2.2
      (fun a im => ⟨refusalText, rfl, by decide⟩)).2

/-- C5: when no attempt yields a qualifying response (for GPT-4o every
response carries the refusal prefix; for Gemini every response is shorter than
10 characters; exceptions allowed throughout), the client runs through its 10
attempts and returns the absent result (`None`) to its caller — in this total
embedding no exception escapes the call. -/
theorem C5_exhaustion_returns_absent (Img : Type)
    (call : Nat → List Img → ApiResult)
    (resize r09 r07 : List Img → List Img) (p : String) (temp : ℚ)
    (imgs : List Img) :
    ((∀ a im t, call a im = .ok t → pyStartsWith t imSorryBut = true) →
      (runClient (gptStep call resize) (initState p temp imgs)).result =
          some .noResult ∧
      analyze_images_with_gpt4_vision call resize p temp imgs = none) ∧
    ((∀ a im t, call a im = .ok t → t.length < 10) →
      (runClient (geminiStep call r09 r07) (initState p temp imgs)).result =
          some .noResult ∧
      analyze_images_with_gemini_vision call r09 r07 p temp imgs = none) := by
  constructor
  · intro hcall
    have hsome := iterate_result_isSome (gptStep call resize)
      (fun s hs => gptStep_done call resize s hs)
      (fun s h h2 => gptStep_attempt_of_none call resize s h h2)
      (fun s h h10 => gptStep_finishes call resize s h h10)
      (MAX_ATTEMPTS + 1) (initState p temp imgs) (by omega)
      (by simp [initState])
    have hinv := iterate_preserves (gptStep call resize)
      (fun s => s.result = none ∨ s.result = some .noResult)
      (fun s hs => gptStep_noResult_inv call resize hcall s hs)
      (MAX_ATTEMPTS + 1) (initState p temp imgs) (Or.inl rfl)
    have hrc : (runClient (gptStep call resize)
        (initState p temp imgs)).result = some .noResult := by
      rw [runClient]
      rcases hinv with h | h
      · rw [h] at hsome
        simp at hsome
      · exact h
    exact ⟨hrc, by simp [analyze_images_with_gpt4_vision, hrc]⟩
  · intro hcall
    have hsome := iterate_result_isSome (geminiStep call r09 r07)
      (fun s hs => geminiStep_done call r09 r07 s hs)
      (fun s h h2 => geminiStep_attempt_of_none call r09 r07 s h h2)
      (fun s h h10 => geminiStep_finishes call r09 r07 s h h10)
      (MAX_ATTEMPTS + 1) (initState p temp imgs) (by omega)
      (by simp [initState])
    have hinv := iterate_preserves (geminiStep call r09 r07)
      (fun s => s.result = none ∨ s.result = some .noResult)
      (fun s hs => geminiStep_noResult_inv call r09 r07 hcall s hs)
      (MAX_ATTEMPTS + 1) (initState p temp imgs) (Or.inl rfl)
    have hrc : (runClient (geminiStep call r09 r07)
        (initState p temp imgs)).result = some .noResult := by
      rw [runClient]
      rcases hinv with h | h
      · rw [h] at hsome
        simp at hsome
      · exact h
    exact ⟨hrc, by simp [analyze_images_with_gemini_vision, hrc]⟩

/-- C5 witness: a call that always raises drives both clients to the absent
result. -/
theorem C5_exhaustion_returns_absent_witness :
    analyze_images_with_gpt4_vision quotaCall resize0 "prompt" (0 : ℚ) [5] =
      none ∧
    analyze_images_with_gemini_vision quotaCall resize0 resize0 "prompt"
      (0 : ℚ) [5] = none := by
  constructor
  · exact ((C5_exhaustion_returns_absent Nat quotaCall resize0 resize0 resize0
      "prompt" 0 [5]).1 (fun a im t h => absurd h (by simp [quotaCall]))).2
  · exact ((C5_exhaustion_returns_absent Nat quotaCall resize0 resize0 resize0
      "prompt" 0 [5]).2 (fun a im t h => absurd h (by simp [quotaCall]))).2

/-- C6 counterexample: the GPT-4o client has no quota check: an exception whose
message carries the balance/quota-exceeded signal is retried like any other
error and the run ends with the ordinary absent result, never with the
save-and-exit outcome — refuting the claim for every Provider Request Client. -/
theorem C6_counterexample_gpt_retries_quota :
    pyContains (pyLower quotaMsg) "exceeded" = true ∧
    (gptStep quotaCall resize0 s0).result = none ∧
    (gptStep quotaCall resize0 s0).attempt = 1 ∧
    (runClient (gptStep quotaCall resize0) s0).result = some .noResult := by
  decide

/-- C6 amended: only the Claude client reacts to a balance/quota-exceeded
signal: it saves the accumulated timing data and exits the process immediately,
with no retry; the GPT-4o and Gemini clients retry such an exception like any
other error. -/
theorem C6_amended_quota_exit_only_claude (Img : Type)
    (call : Nat → List Img → ApiResult) (resize r09 r07 : List Img → List Img)
    (s : ClientState Img) (msg : String) :
    s.result = none → s.attempt < MAX_ATTEMPTS →
    call s.attempt s.images = .exn msg →
    pyContains (pyLower msg) "exceeded" = true →
    (claudeStep call resize s = { s with result := some .savedTimesAndExited } ∧
      (gptStep call resize s).result = none ∧
      (gptStep call resize s).attempt = s.attempt + 1 ∧
      (geminiStep call r09 r07 s).result = none ∧
      (geminiStep call r09 r07 s).attempt = s.attempt + 1) := by
  intro h hlt hc hex
  refine ⟨?_, ?_, ?_, ?_, ?_⟩
  · simp only [claudeStep, h]
    rw [if_pos hlt]
    simp only [hc]
    rw [if_pos hex]
  · simp only [gptStep, h]
    rw [if_pos hlt]
    simp only [hc]
    split <;> rfl
  · simp only [gptStep, h]
    rw [if_pos hlt]
    simp only [hc]
    split <;> rfl
  · simp only [geminiStep, h]
    rw [if_pos hlt]
    simp only [hc]
    split <;> rfl
  · simp only [geminiStep, h]
    rw [if_pos hlt]
    simp only [hc]
    split <;> rfl

/-- C6 amended witness: at a concrete quota-exceeded exception the Claude
client exits after saving the timing table while the GPT-4o client retries. -/
theorem C6_amended_quota_exit_only_claude_witness :
    claudeStep quotaCall resize0 s0 =
      { s0 with result := some .savedTimesAndExited } ∧
    (gptStep quotaCall resize0 s0).result = none :=
  ⟨(C6_amended_quota_exit_only_claude Nat quotaCall resize0 resize0 resize0 s0
      quotaMsg rfl (by decide) rfl (by decide)).1,
   (C6_amended_quota_exit_only_claude Nat quotaCall resize0 resize0 resize0 s0
      quotaMsg rfl (by decide) rfl (by decide)).2.1⟩

/-! ## Batch-runner and timing-table lemmas -/

lemma processCase_skip (provider : CaseItem → Option Choice) (acc : BatchOut)
    (item : CaseItem) (hex : fsExists acc.fs item.resultFilePath = true) :
    processCase provider acc item = acc := by
  simp only [processCase]
  rw [if_pos hex]

lemma batchRun_all_exist (provider : CaseItem → Option Choice) (fs0 : FS) :
    ∀ items : List CaseItem,
      (∀ item ∈ items, fsExists fs0 item.resultFilePath = true) →
      List.foldl (processCase provider) ⟨fs0, 0, []⟩ items =
        (⟨fs0, 0, []⟩ : BatchOut) := by
  intro items
  induction items with
  | nil => intro _; rfl
  | cons i rest ih =>
      intro hall
      rw [List.foldl_cons,
        processCase_skip provider ⟨fs0, 0, []⟩ i (hall i (List.mem_cons_self i rest))]
      exact ih fun item hm => hall item (List.mem_cons_of_mem i hm)

lemma countKey_map_update (df : List TimeRow) (k : TimeKey) (x : ℚ)
    (k' : TimeKey) :
    countKey (df.map (fun r => if rowMatches r k then { r with time := x } else r)) k' =
      countKey df k' := by
  induction df with
  | nil => rfl
  | cons r t ih =>
      simp only [countKey, List.map_cons, List.filter_cons] at ih ⊢
      by_cases hr : rowMatches r k = true
      · rw [if_pos hr]
        by_cases hk' : rowMatches r k' = true
        · rw [if_pos (show rowMatches { r with time := x } k' = true from hk'),
            if_pos hk']
          simp [ih]
        · rw [if_neg (show ¬ rowMatches { r with time := x } k' = true from hk'),
            if_neg hk']
          exact ih
      · rw [if_neg hr]
        by_cases hk' : rowMatches r k' = true
        · rw [if_pos hk', if_pos hk']
          simp [ih]
        · rw [if_neg hk', if_neg hk']
          exact ih

lemma filter_nil_of_any_false (df : List TimeRow) (k : TimeKey)
    (h : df.any (fun r => rowMatches r k) = false) :
    df.filter (fun r => rowMatches r k) = [] := by
  induction df with
  | nil => rfl
  | cons r t ih =>
      simp only [List.any_cons, Bool.or_eq_false_iff] at h
      simp [List.filter_cons, h.1, ih h.2]

lemma any_false_of_countKey_zero (df : List TimeRow) (k : TimeKey)
    (h : countKey df k = 0) :
    df.any (fun r => rowMatches r k) = false := by
  induction df with
  | nil => rfl
  | cons r t ih =>
      simp only [countKey, List.filter_cons] at h
      by_cases hr : rowMatches r k = true
      · rw [if_pos hr] at h
        simp at h
      · rw [if_neg hr] at h
        simp [List.any_cons, hr, ih h]

lemma rowMatches_self (k : TimeKey) (x : ℚ) :
    rowMatches ⟨k.1, k.2.1, k.2.2, x⟩ k = true := by
  simp [rowMatches]

lemma countKey_upsert_self (df : List TimeRow) (k : TimeKey) (x : ℚ) :
    countKey (upsertTime df k x) k = max (countKey df k) 1 := by
  simp only [upsertTime]
  by_cases hany : df.any (fun r => rowMatches r k) = true
  · rw [if_pos hany, countKey_map_update]
    have hpos : 1 ≤ countKey df k := by
      obtain ⟨r, hmem, hr⟩ := List.any_eq_true.mp hany
      have hf : r ∈ df.filter (fun r => rowMatches r k) :=
        List.mem_filter.mpr ⟨hmem, hr⟩
      have := List.length_pos.mpr (List.ne_nil_of_mem hf)
      simpa [countKey] using this
    omega
  · rw [if_neg hany]
    have hnil := filter_nil_of_any_false df k (by simpa using hany)
    simp only [countKey, List.filter_append, hnil, List.filter_cons,
      rowMatches_self, List.filter_nil]
    simp

lemma upsert_time_eq (df : List TimeRow) (k : TimeKey) (x : ℚ) :
    ∀ r ∈ (upsertTime df k x).filter (fun r => rowMatches r k), r.time = x := by
  intro r hr
  simp only [upsertTime] at hr
  by_cases hany : df.any (fun r => rowMatches r k) = true
  · rw [if_pos hany] at hr
    obtain ⟨hmem, hmatch⟩ := List.mem_filter.mp hr
    obtain ⟨r0, hr0, hfr⟩ := List.mem_map.mp hmem
    by_cases h0 : rowMatches r0 k = true
    · rw [if_pos h0] at hfr
      rw [← hfr]
    · rw [if_neg h0] at hfr
      rw [← hfr] at hmatch
      exact absurd hmatch h0
  · rw [if_neg hany] at hr
    rw [List.filter_append, filter_nil_of_any_false df k (by simpa using hany)]
      at hr
    simp only [List.nil_append, List.filter_cons, rowMatches_self,
      List.filter_nil, if_true] at hr
    rw [List.mem_singleton] at hr
    rw [hr]

lemma countKey_upsert_other (df : List TimeRow) (k k' : TimeKey) (x : ℚ)
    (hne : k' ≠ k) :
    countKey (upsertTime df k x) k' = countKey df k' := by
  simp only [upsertTime]
  by_cases hany : df.any (fun r => rowMatches r k) = true
  · rw [if_pos hany, countKey_map_update]
  · rw [if_neg hany]
    have hnew : rowMatches ⟨k.1, k.2.1, k.2.2, x⟩ k' = false := by
      obtain ⟨a, b, c⟩ := k
      obtain ⟨a', b', c'⟩ := k'
      simp only [rowMatches, decide_eq_false_iff_not]
      rintro ⟨h1, h2, h3⟩
      exact hne (by simp_all)
    simp [countKey, List.filter_append, List.filter_cons, hnew]

/-! ## Claim theorems: batch runner and timing recorder -/

/-- C7: a case whose result file already exists is skipped unconditionally —
the accumulator (filesystem, provider-call count, failure log) is returned
untouched before any provider call — and hence a batch run over work items
whose result files all exist performs zero provider calls and leaves the
filesystem byte-identical. -/
theorem C7_skip_existing_idempotent (provider : CaseItem → Option Choice)
    (items : List CaseItem) (fs0 : FS) :
    (∀ (acc : BatchOut) (item : CaseItem),
      fsExists acc.fs item.resultFilePath = true →
      processCase provider acc item = acc) ∧
    ((∀ item ∈ items, fsExists fs0 item.resultFilePath = true) →
      batchRun provider items fs0 = ⟨fs0, 0, []⟩) := by
  refine ⟨fun acc item hex => processCase_skip provider acc item hex,
    fun hall => ?_⟩
  simp only [batchRun]
  exact batchRun_all_exist provider fs0 items hall

/-- C7 witness: re-running over a filesystem already holding both result files
calls no provider and changes nothing. -/
theorem C7_skip_existing_idempotent_witness :
    batchRun (fun _ => none) [itemA, itemB] fsAB = ⟨fsAB, 0, []⟩ :=
  (C7_skip_existing_idempotent (fun _ => none) [itemA, itemB] fsAB).2 (by decide)

/-- C8: starting from a table in which every (number, temperature, try) key
occurs at most once — as any table built by the recorder from the fresh empty
table is — two upserts with the same key leave exactly one row for that key,
holding the later time; a key matching no row is appended; and the
at-most-once invariant is preserved for every key. -/
theorem C8_timing_upsert_exactly_one (df : List TimeRow) (k : TimeKey)
    (t1 t2 : ℚ) (hinv : ∀ k0, countKey df k0 ≤ 1) :
    countKey (upsertTime (upsertTime df k t1) k t2) k = 1 ∧
    (∀ r ∈ (upsertTime (upsertTime df k t1) k t2).filter
        (fun r => rowMatches r k), r.time = t2) ∧
    (countKey df k = 0 →
      upsertTime df k t1 = df ++ [⟨k.1, k.2.1, k.2.2, t1⟩]) ∧
    (∀ k0, countKey (upsertTime df k t1) k0 ≤ 1) := by
  refine ⟨?_, ?_, ?_, ?_⟩
  · rw [countKey_upsert_self, countKey_upsert_self]
    have := hinv k
    omega
  · exact upsert_time_eq _ k t2
  · intro h0
    simp only [upsertTime]
    rw [if_neg (by simp [any_false_of_countKey_zero df k h0])]
  · intro k0
    by_cases hk : k0 = k
    · subst hk
      rw [countKey_upsert_self]
      have := hinv k0
      omega
    · rw [countKey_upsert_other df k k0 t1 hk]
      exact hinv k0

/-- C8 witness: two recorder calls with key (1, 0, 1) and times 3 then 7 on the
fresh empty table leave exactly one row for that key, holding 7. -/
theorem C8_timing_upsert_exactly_one_witness :
    countKey (upsertTime (upsertTime [] keyT 3) keyT 7) keyT = 1 ∧
    (∀ r ∈ (upsertTime (upsertTime [] keyT 3) keyT 7).filter
        (fun r => rowMatches r keyT), r.time = 7) :=
  ⟨(C8_timing_upsert_exactly_one [] keyT 3 7 (fun _ => Nat.zero_le 1)).1,
   (C8_timing_upsert_exactly_one [] keyT 3 7 (fun _ => Nat.zero_le 1)).2.1⟩

/-- C10 counterexample: the GPT-4o client returns a `Choice` object, so
`if result:` is true even when the message content is the empty string: a
returned empty text still writes a (byte-empty) result file and is not logged
as a failure — refuting the claimed write-iff-non-empty behaviour. -/
theorem C10_counterexample_empty_text_writes_file :
    batchRun emptyChoiceProvider [itemR] [] =
      ⟨[(itemR.resultFilePath, "")], 1, []⟩ := by decide

/-- C10 amended: for a non-skipped case the GPT-4o batch runner writes the
result file iff the client's result is non-absent (a `Choice` object),
whatever its content — an empty content writes an empty file — while an absent
result (`None`) writes nothing and appends the case to the failure log. -/
theorem C10_amended_write_iff_result_present
    (provider : CaseItem → Option Choice) (acc : BatchOut) (item : CaseItem)
    (hskip : fsExists acc.fs item.resultFilePath = false) :
    (∀ c, provider item = some c →
      processCase provider acc item =
        { acc with
            fs := fsWrite acc.fs item.resultFilePath c.content,
            providerCalls := acc.providerCalls + 1 }) ∧
    (provider item = none →
      processCase provider acc item =
        { acc with
            providerCalls := acc.providerCalls + 1,
            loggedFailures := acc.loggedFailures ++ [item.resultFilePath] }) := by
  constructor
  · intro c hp
    simp only [processCase]
    rw [if_neg (by simp [hskip])]
    simp only [hp]
  · intro hp
    simp only [processCase]
    rw [if_neg (by simp [hskip])]
    simp only [hp]

/-- C10 amended witness: with an empty filesystem, a provider returning an
empty-content `Choice` writes the file, and a provider returning `None` logs
the failure and writes nothing. -/
theorem C10_amended_write_iff_result_present_witness :
    processCase emptyChoiceProvider ⟨[], 0, []⟩ itemR =
      ⟨fsWrite [] itemR.resultFilePath "", 1, []⟩ ∧
    processCase (fun _ => none) ⟨[], 0, []⟩ itemR =
      ⟨[], 1, [itemR.resultFilePath]⟩ :=
  ⟨(C10_amended_write_iff_result_present emptyChoiceProvider ⟨[], 0, []⟩ itemR
      rfl).1 ⟨""⟩ rfl,
   (C10_amended_write_iff_result_present (fun _ => none) ⟨[], 0, []⟩ itemR
      rfl).2 rfl⟩

end Radiographics
